import Mathlib

/-!
Verification development for the Tokyo travel-planning agent.

The Python sources are shallowly embedded: strings become `List Char`,
Python floats become exact rationals (`ℚ`), machine dictionaries become
association lists, exceptions become `Except` / explicit result sums, and
the stateful ReAct planning loop of `Agent.py` becomes a fuel-indexed
recursive function over an explicit state record.  The remote model and
the data-layer tool operations are external collaborators and are taken
as function parameters.
-/

set_option maxRecDepth 10000

namespace Agent

/-- The double-quote character (written by code to avoid literal clutter). -/
def dquote : Char := Char.ofNat 34

/-- Left curly brace character. -/
def lbrace : Char := Char.ofNat 123

/-- Right curly brace character. -/
def rbrace : Char := Char.ofNat 125

/-- Left square bracket character. -/
def lbrack : Char := Char.ofNat 91

/-- Right square bracket character. -/
def rbrack : Char := Char.ofNat 93

/-- ASCII whitespace as recognised by Python's regex class and
`str.strip` (space, tab, newline, carriage return, vertical tab, form feed). -/
def isPySpace (c : Char) : Bool :=
  c == ' ' || c == '\t' || c == '\n' || c == '\r' || c == Char.ofNat 11 || c == Char.ofNat 12

/-- Python `str.strip()`: remove leading and trailing whitespace. -/
def pyStrip (s : List Char) : List Char :=
  ((s.dropWhile isPySpace).reverse.dropWhile isPySpace).reverse

/-- Python `str.strip('"')`: remove every leading and trailing double-quote
character (not merely one matched pair). -/
def pyStripQuotes (s : List Char) : List Char :=
  ((s.dropWhile (· == dquote)).reverse.dropWhile (· == dquote)).reverse

/-- Suffix of `text` that follows the first occurrence of `marker`
(`none` when the marker does not occur).  This is where `re.search`
anchors a pattern that begins with the literal `marker`. -/
def dropAfterMarker (marker : List Char) : List Char → Option (List Char)
  | [] => if marker.isEmpty then some [] else none
  | c :: cs =>
    if marker == (c :: cs).take marker.length then some ((c :: cs).drop marker.length)
    else dropAfterMarker marker cs

/-- Semantics of `re.search(marker + r"\s*(.*)", text)`: find the first
occurrence of the literal marker, let `\s*` greedily consume whitespace
(including line breaks), and let `(.*)` capture greedily up to the next
newline or the end of the text.  Returns the captured group. -/
def reSearchCapture (marker text : List Char) : Option (List Char) :=
  (dropAfterMarker marker text).map
    (fun rest => (rest.dropWhile isPySpace).takeWhile (· != '\n'))

/-! ## A model of Python `json` values and `json.loads`

`Agent.py` and `DataReader.py` feed model-produced strings to
`json.loads`.  The embedding below implements the JSON grammar that
Python's default decoder accepts (including the non-standard `NaN`,
`Infinity` and `-Infinity` constants), with numeric values read exactly
into `ℚ`. -/

/-- A decoded Python `json` value. -/
inductive Json where
  | null : Json
  | boolean : Bool → Json
  | num : ℚ → Json
  | nan : Json
  | infty : Bool → Json
  | str : List Char → Json
  | arr : List Json → Json
  | obj : List (List Char × Json) → Json

/-- JSON inter-token whitespace (space, tab, newline, carriage return). -/
def isJsonWs (c : Char) : Bool :=
  c == ' ' || c == '\t' || c == '\n' || c == '\r'

/-- Skip JSON whitespace. -/
def skipWs (s : List Char) : List Char := s.dropWhile isJsonWs

/-- Value of a hexadecimal digit. -/
def hexVal (c : Char) : Option Nat :=
  if '0' ≤ c ∧ c ≤ '9' then some (c.toNat - 48)
  else if 'a' ≤ c ∧ c ≤ 'f' then some (c.toNat - 87)
  else if 'A' ≤ c ∧ c ≤ 'F' then some (c.toNat - 55)
  else none

/-- Single-character JSON string escapes. -/
def simpleEscape (c : Char) : Option Char :=
  if c == dquote then some dquote
  else if c == '\\' then some '\\'
  else if c == '/' then some '/'
  else if c == 'b' then some (Char.ofNat 8)
  else if c == 'f' then some (Char.ofNat 12)
  else if c == 'n' then some '\n'
  else if c == 'r' then some '\r'
  else if c == 't' then some '\t'
  else none

/-- Parse the body of a JSON string (the opening quote already consumed),
returning the decoded characters and the remaining input.  Unescaped
control characters are rejected, as by Python's strict decoder; surrogate
pairs in `\u` escapes are combined. -/
def parseStringBody : Nat → List Char → Option (List Char × List Char)
  | 0, _ => none
  | _, [] => none
  | fuel + 1, c :: rest =>
    if c == dquote then some ([], rest)
    else if c == '\\' then
      match rest with
      | [] => none
      | e :: rest2 =>
        if e == 'u' then
          match rest2 with
          | h1 :: h2 :: h3 :: h4 :: rest3 =>
            match hexVal h1, hexVal h2, hexVal h3, hexVal h4 with
            | some a, some b, some c2, some d =>
              let n := ((a * 16 + b) * 16 + c2) * 16 + d
              if 3456 * 16 ≤ n ∧ n < 3520 * 16 then
                match rest3 with
                | b1 :: u2 :: g1 :: g2 :: g3 :: g4 :: rest4 =>
                  if b1 == '\\' && u2 == 'u' then
                    match hexVal g1, hexVal g2, hexVal g3, hexVal g4 with
                    | some a2, some b2, some c3, some d2 =>
                      let m := ((a2 * 16 + b2) * 16 + c3) * 16 + d2
                      if 3520 * 16 ≤ m ∧ m < 3584 * 16 then
                        match parseStringBody fuel rest4 with
                        | some (s, r) =>
                          some (Char.ofNat (65536 + (n - 55296) * 1024 + (m - 56320)) :: s, r)
                        | none => none
                      else none
                    | _, _, _, _ => none
                  else none
                | _ => none
              else if 3520 * 16 ≤ n ∧ n < 3584 * 16 then none
              else
                match parseStringBody fuel rest3 with
                | some (s, r) => some (Char.ofNat n :: s, r)
                | none => none
            | _, _, _, _ => none
          | _ => none
        else
          match simpleEscape e with
          | some c2 =>
            match parseStringBody fuel rest2 with
            | some (s, r) => some (c2 :: s, r)
            | none => none
          | none => none
    else if c.toNat < 32 then none
    else
      match parseStringBody fuel rest with
      | some (s, r) => some (c :: s, r)
      | none => none

/-- Digit string to natural number. -/
def digitsToNat (ds : List Char) : Nat :=
  ds.foldl (fun n c => 10 * n + (c.toNat - 48)) 0

/-- Parse a JSON number token starting at the head of the input, reading
its value exactly into `ℚ`.  Follows the JSON grammar (no leading zeros,
a fraction or exponent is consumed only when complete). -/
def parseNumberFrom (input : List Char) : Option (Json × List Char) :=
  let signed := match input with
    | c :: rest => if c == '-' then (true, rest) else (false, input)
    | [] => (false, input)
  let neg := signed.1
  let r1 := signed.2
  match r1 with
  | [] => none
  | c :: _ =>
    if !c.isDigit then none
    else
      let ip := if c == '0' then ([c], r1.tail)
                else (r1.takeWhile Char.isDigit, r1.dropWhile Char.isDigit)
      let intDigits := ip.1
      let r2 := ip.2
      let fp :=
        match r2 with
        | d :: rest =>
          if d == '.' then
            let f := rest.takeWhile Char.isDigit
            if f.isEmpty then (([] : List Char), r2) else (f, rest.dropWhile Char.isDigit)
          else (([] : List Char), r2)
        | [] => (([] : List Char), r2)
      let fracDigits := fp.1
      let r3 := fp.2
      let ep :=
        match r3 with
        | e :: rest =>
          if e == 'e' || e == 'E' then
            match rest with
            | s :: rest2 =>
              if s == '+' || s == '-' then
                let d := rest2.takeWhile Char.isDigit
                if d.isEmpty then (false, ([] : List Char), r3)
                else (s == '-', d, rest2.dropWhile Char.isDigit)
              else
                let d := rest.takeWhile Char.isDigit
                if d.isEmpty then (false, ([] : List Char), r3)
                else (false, d, rest.dropWhile Char.isDigit)
            | [] => (false, ([] : List Char), r3)
          else (false, ([] : List Char), r3)
        | [] => (false, ([] : List Char), r3)
      let expNeg := ep.1
      let expDigits := ep.2.1
      let r4 := ep.2.2
      let mantissa : ℚ :=
        (digitsToNat intDigits : ℚ) + (digitsToNat fracDigits : ℚ) / (10 : ℚ) ^ fracDigits.length
      let expo : ℤ := if expNeg then -(digitsToNat expDigits : ℤ) else (digitsToNat expDigits : ℤ)
      some (Json.num ((if neg then -mantissa else mantissa) * (10 : ℚ) ^ expo), r4)

/-- Expect the literal `lit` at the head of the input. -/
def expectLit (lit input : List Char) : Option (List Char) :=
  if lit == input.take lit.length then some (input.drop lit.length) else none

mutual

/-- Parse one JSON value, returning it and the remaining input. -/
def parseValue : Nat → List Char → Option (Json × List Char)
  | 0, _ => none
  | fuel + 1, input =>
    match skipWs input with
    | [] => none
    | c :: rest =>
      if c == 'n' then (expectLit ("ull".toList) rest).map (fun r => (Json.null, r))
      else if c == 't' then (expectLit ("rue".toList) rest).map (fun r => (Json.boolean true, r))
      else if c == 'f' then (expectLit ("alse".toList) rest).map (fun r => (Json.boolean false, r))
      else if c == 'N' then (expectLit ("aN".toList) rest).map (fun r => (Json.nan, r))
      else if c == 'I' then (expectLit ("nfinity".toList) rest).map (fun r => (Json.infty false, r))
      else if c == dquote then
        (parseStringBody (rest.length + 1) rest).map (fun p => (Json.str p.1, p.2))
      else if c == lbrack then
        let r1 := skipWs rest
        match r1 with
        | d :: r2 => if d == rbrack then some (Json.arr [], r2) else parseElems fuel r1 []
        | [] => none
      else if c == lbrace then
        let r1 := skipWs rest
        match r1 with
        | d :: r2 => if d == rbrace then some (Json.obj [], r2) else parseMembers fuel r1 []
        | [] => none
      else if c == '-' then
        match rest with
        | c2 :: r2 =>
          if c2 == 'I' then (expectLit ("nfinity".toList) r2).map (fun r => (Json.infty true, r))
          else parseNumberFrom (c :: rest)
        | [] => none
      else if c.isDigit then parseNumberFrom (c :: rest)
      else none

/-- Parse the comma-separated elements of a JSON array (first element next). -/
def parseElems : Nat → List Char → List Json → Option (Json × List Char)
  | 0, _, _ => none
  | fuel + 1, input, acc =>
    match parseValue fuel input with
    | none => none
    | some (v, rest) =>
      match skipWs rest with
      | d :: r2 =>
        if d == ',' then parseElems fuel r2 (acc ++ [v])
        else if d == rbrack then some (Json.arr (acc ++ [v]), r2)
        else none
      | [] => none

/-- Parse the comma-separated members of a JSON object (first member next). -/
def parseMembers : Nat → List Char → List (List Char × Json) → Option (Json × List Char)
  | 0, _, _ => none
  | fuel + 1, input, acc =>
    match skipWs input with
    | d :: rest =>
      if d == dquote then
        match parseStringBody (rest.length + 1) rest with
        | none => none
        | some (key, r1) =>
          match skipWs r1 with
          | col :: r2 =>
            if col == ':' then
              match parseValue fuel r2 with
              | none => none
              | some (v, r3) =>
                match skipWs r3 with
                | d2 :: r4 =>
                  if d2 == ',' then parseMembers fuel r4 (acc ++ [(key, v)])
                  else if d2 == rbrace then some (Json.obj (acc ++ [(key, v)]), r4)
                  else none
                | [] => none
            else none
          | [] => none
      else none
    | [] => none

end

/-- Python `json.loads`: parse one JSON document; trailing non-whitespace
is an error (`Extra data`), any failure raises `json.JSONDecodeError`,
modelled by `none`. -/
def jsonParse (s : List Char) : Option Json :=
  match parseValue (2 * s.length + 2) s with
  | some (v, rest) => if (skipWs rest).isEmpty then some v else none
  | none => none

/-! ## `ReActAgent.extract_action` (Agent.py lines 73-87) -/

/-- `extract_action`: run `re.search(r"Action:\s*(.*)", response)` and
`re.search(r"Action Input:\s*(.*)", response)` independently, strip each
captured group, and default each to the empty string when its marker is
absent. -/
def extract_action (response : List Char) : List Char × List Char :=
  let action := match reSearchCapture ("Action:".toList) response with
    | some g => pyStrip g
    | none => []
  let action_input := match reSearchCapture ("Action Input:".toList) response with
    | some g => pyStrip g
    | none => []
  (action, action_input)

/-- Modelled from the claim's words: the extracted field is the content
following the first occurrence of the marker, up to the end of that same
line, with surrounding whitespace stripped; empty when the marker is
absent. -/
def extractFieldClaim (marker text : List Char) : List Char :=
  match dropAfterMarker marker text with
  | none => []
  | some rest => pyStrip (rest.takeWhile (· != '\n'))

/-- The amended contract: after the first occurrence of the marker the
parser first skips any whitespace, line breaks included, and only then
captures up to the end of the line, stripping trailing whitespace. -/
def extractFieldAmended (marker text : List Char) : List Char :=
  match dropAfterMarker marker text with
  | none => []
  | some rest => pyStrip ((rest.dropWhile isPySpace).takeWhile (· != '\n'))

/-! ## `ReActAgent.calculate_cost` (Agent.py lines 14-18 and 54-71) -/

/-- The `qwen-flash` price entry, `{"input": 0.0003, "output": 0.0006}`;
it doubles as the fallback for unknown models. -/
def qwenFlashPrice : ℚ × ℚ := (3 / 10000, 6 / 10000)

/-- `MODEL_PRICING`: the per-model price table (prices per 1000 tokens). -/
def MODEL_PRICING : List (List Char × (ℚ × ℚ)) :=
  [("qwen-flash".toList, qwenFlashPrice),
   ("qwen-plus".toList, (8 / 1000, 8 / 1000)),
   ("qwen-max".toList, (4 / 100, 12 / 100))]

/-- `calculate_cost`: look the model up in `MODEL_PRICING`, falling back
to the `qwen-flash` entry when absent, and charge
`prompt_tokens/1000 * input + completion_tokens/1000 * output`.
Python's floats are modelled by exact rationals. -/
def calculate_cost (model : List Char) (prompt_tokens completion_tokens : ℕ) : ℚ :=
  let pricing := (MODEL_PRICING.lookup model).getD qwenFlashPrice
  (prompt_tokens : ℚ) / 1000 * pricing.1 + (completion_tokens : ℚ) / 1000 * pricing.2

/-- The input price a cost computation uses for `model` (table entry or
fallback). -/
def inPrice (model : List Char) : ℚ := ((MODEL_PRICING.lookup model).getD qwenFlashPrice).1

/-- The output price a cost computation uses for `model` (table entry or
fallback). -/
def outPrice (model : List Char) : ℚ := ((MODEL_PRICING.lookup model).getD qwenFlashPrice).2

/-! ## `ReActAgent.execute_action` (Agent.py lines 44-52 and 89-121)

The data-layer operations live behind the tool registry; the loop's only
interaction with them is: build a call, run it, serialise the result with
`json.dumps` (or catch whatever was raised).  The operation together with
the serialisation of its result is therefore abstracted as an environment
`ToolCall → ExecResult`: `ok s` is the serialised observation text, and
`raise e` is the `str(...)` rendering of an exception raised by the
operation or by the serialisation. -/

/-- A tool invocation as built by `execute_action`'s argument-parsing
strategies. -/
inductive ToolCall where
  | callNoArg (action : List Char)
  | callSingle (action : List Char) (arg : List Char)
  | callSearchFields (fields : List (List Char × Json))
  | callSearchKeyword (kw : List Char)

/-- Outcome of running a tool call and serialising its result. -/
inductive ExecResult where
  | ok (observation : List Char)
  | raise (err : List Char)

/-- The keys of the `self.tools` registry dictionary. -/
def toolNames : List (List Char) :=
  ["get_all_attractions".toList, "get_attraction_by_name".toList,
   "search_attractions".toList, "get_attractions_by_category".toList,
   "get_attractions_by_ward".toList, "get_transportation_info".toList,
   "get_basic_info".toList]

/-- The actions dispatched with a single string argument (lines 99-101). -/
def singleStringActions : List (List Char) :=
  ["get_attraction_by_name".toList, "get_attractions_by_category".toList,
   "get_attractions_by_ward".toList, "get_transportation_info".toList,
   "get_basic_info".toList]

/-- The fixed unknown-action observation, `f"未知的动作: {action}"`. -/
def unknownActionMsg (action : List Char) : List Char := "未知的动作: ".toList ++ action

/-- The fixed action-error observation prefix of `f"执行动作时出错: {str(e)}"`. -/
def execErrorPrefix : List Char := "执行动作时出错: ".toList

/-- The `str(...)` of the `TypeError` Python raises for `f(**params)` when
`params` is not a mapping. -/
def mappingTypeError : List Char := "argument after ** must be a mapping".toList

/-- Convert a call outcome to the observation string `execute_action`
returns: the serialised result on success, the error text prefixed by the
fixed marker when the `try` block caught an exception. -/
def observe : ExecResult → List Char
  | .ok s => s
  | .raise e => execErrorPrefix ++ e

/-- `execute_action`: registry lookup and per-strategy argument parsing.
Returns the observation string together with the tool call that was
actually issued (`none` when no operation was invoked).  Single-string
actions get the quote-stripped raw text; `search_attractions` tries
`json.loads` on the raw text, spreads a decoded object as keyword
arguments, raises a `TypeError` before any call when the decoded value is
not a mapping, and falls back to `keyword=` with the quote-stripped text
when decoding fails; every other registered action is called without
arguments.  Anything raised inside the `try` block becomes the
fixed-format error observation. -/
def execute_action (env : ToolCall → ExecResult) (action action_input : List Char) :
    List Char × Option ToolCall :=
  if action ∈ toolNames then
    let step : ExecResult × Option ToolCall :=
      if action ∈ singleStringActions then
        let c := ToolCall.callSingle action (pyStripQuotes action_input)
        (env c, some c)
      else if action = "search_attractions".toList then
        match jsonParse action_input with
        | none =>
          let c := ToolCall.callSearchKeyword (pyStripQuotes action_input)
          (env c, some c)
        | some (Json.obj fields) =>
          let c := ToolCall.callSearchFields fields
          (env c, some c)
        | some _ => (ExecResult.raise mappingTypeError, none)
      else
        let c := ToolCall.callNoArg action
        (env c, some c)
    (observe step.1, step.2)
  else (unknownActionMsg action, none)

/-- Modelled from the claim's words for C7: remove exactly one layer of
surrounding double quotes (only when the text both starts and ends with
one). -/
def stripOneQuoteLayer (s : List Char) : List Char :=
  if 2 ≤ s.length ∧ s.head? = some dquote ∧ s.getLast? = some dquote then
    (s.drop 1).dropLast
  else s

/-! ## `ReActAgent.plan_travel` (Agent.py lines 123-209) -/

/-- A chat message role. -/
inductive Role where
  | sys : Role
  | user : Role
  | assistant : Role

/-- A chat message. -/
structure Message where
  role : Role
  content : List Char

/-- What one call to the chat-completion endpoint yields: the generated
text and the usage report. -/
structure ModelResponse where
  text : List Char
  prompt_tokens : ℕ
  completion_tokens : ℕ

/-- The running account kept on the agent instance: `self.total_cost` and
`self.total_tokens`. -/
structure Totals where
  total_cost : ℚ
  prompt_tokens : ℕ
  completion_tokens : ℕ

/-- The value returned by `plan_travel`, keeping each return statement's
interpolated data: `budgetExceeded limit cost` is the budget message of
lines 131/169, `finalAnswer text turnTokens turnCost totalTokens totalCost`
is the answer plus the cost-disclosure suffix of lines 198-200, and
`iterationExceeded cost` is the step-limit message of line 209. -/
inductive PlanMessage where
  | budgetExceeded (limit : ℚ) (cost : ℚ)
  | finalAnswer (text : List Char) (turnTokens : ℕ) (turnCost : ℚ)
      (totalTokens : ℕ) (totalCost : ℚ)
  | iterationExceeded (cost : ℚ)

/-- Result of a run: the returned message, the final running account, and
the usage reports of the model calls made, in order. -/
structure LoopOut where
  msg : PlanMessage
  final : Totals
  reports : List (ℕ × ℕ)

/-- `self.max_iterations = 10` (Agent.py line 41). -/
def max_iterations : ℕ := 10

/-- The fixed system prompt seeded into the conversation (lines 137-157). -/
def systemPrompt : List Char :=
  ("你是一个专业的东京旅游规划助手。使用ReAct模式来思考和行动。\nReAct模式包含以下步骤：\n1. Thought: 分析当前情况并决定下一步行动\n2. Action: 从以下可用工具中选择一个执行\n   - get_all_attractions: 获取所有景点信息\n   - get_attraction_by_name: 获取特定景点详细信息，需要提供景点名称\n   - search_attractions: 搜索景点，可以提供关键词、分类、区域等参数\n   - get_attractions_by_category: 根据分类获取景点，需要提供分类名称\n   - get_attractions_by_ward: 根据区域获取景点，需要提供区域名称\n   - get_transportation_info: 获取景点的交通信息，需要提供景点名称\n   - get_basic_info: 获取景点的基本信息，需要提供景点名称\n3. Observation: 观察工具执行结果\n4. 重复以上步骤直到可以回答用户问题\n\n请严格按照以下格式输出：\nThought: 你的思考过程\nAction: 工具名称\nAction Input: 工具参数\n\n最终回答用户问题时，请提供详细的旅游规划建议。\n").toList

/-- The conversation state seeded for a query: the system message and the
user's query (lines 134-163). -/
def initialHistory (query : List Char) : List Message :=
  [⟨Role.sys, systemPrompt⟩, ⟨Role.user, query⟩]

/-- The `Observation:` marker prefixed to tool output (line 206). -/
def observationTag : List Char := "Observation: ".toList

/-- The cost of one model call as accounted at line 183. -/
def callCost (model : List Char) (resp : ModelResponse) : ℚ :=
  calculate_cost model resp.prompt_tokens resp.completion_tokens

/-- The `for i in range(self.max_iterations)` body of `plan_travel`
(lines 166-209), with the remaining iteration count as fuel.  `llm` is
the chat-completion collaborator (a function of the conversation state
sent to it) and `env` runs tool calls.  Exhausted fuel is the loop
falling through to the line-209 return. -/
def planLoop (model : List Char) (budget_limit : ℚ) (llm : List Message → ModelResponse)
    (env : ToolCall → ExecResult) : ℕ → List Message → Totals → LoopOut
  | 0, _, st => ⟨PlanMessage.iterationExceeded st.total_cost, st, []⟩
  | n + 1, history, st =>
    if budget_limit ≤ st.total_cost then
      ⟨PlanMessage.budgetExceeded budget_limit st.total_cost, st, []⟩
    else
      let resp := llm history
      let cost := calculate_cost model resp.prompt_tokens resp.completion_tokens
      let st' : Totals :=
        ⟨st.total_cost + cost, st.prompt_tokens + resp.prompt_tokens,
         st.completion_tokens + resp.completion_tokens⟩
      let history' := history ++ [⟨Role.assistant, resp.text⟩]
      let parsed := extract_action resp.text
      if parsed.1 = [] then
        ⟨PlanMessage.finalAnswer resp.text (resp.prompt_tokens + resp.completion_tokens) cost
            (st'.prompt_tokens + st'.completion_tokens) st'.total_cost, st',
         [(resp.prompt_tokens, resp.completion_tokens)]⟩
      else
        let observation := (execute_action env parsed.1 parsed.2).1
        let out := planLoop model budget_limit llm env n
            (history' ++ [⟨Role.user, observationTag ++ observation⟩]) st'
        ⟨out.msg, out.final, (resp.prompt_tokens, resp.completion_tokens) :: out.reports⟩

/-- `plan_travel`: the entry budget check of lines 129-131, then the
seeded conversation and the bounded ReAct loop. -/
def plan_travel (model : List Char) (budget_limit : ℚ) (llm : List Message → ModelResponse)
    (env : ToolCall → ExecResult) (query : List Char) (st : Totals) : LoopOut :=
  if budget_limit ≤ st.total_cost then
    ⟨PlanMessage.budgetExceeded budget_limit st.total_cost, st, []⟩
  else planLoop model budget_limit llm env max_iterations (initialHistory query) st

/-! ## `DataReader` (DataReader.py lines 55-116 and 164-176)

Only the fields that the row-processing step transforms are modelled
structurally; the remaining columns of the parquet schema do not affect
any claim and are carried as opaque string fields would be.  A stored row
holds the raw column values; processing a row (`_df_to_dict_list`)
replaces `categories` and `nearby_attractions` by comma-split lists and
replaces `transportation` by the `json.loads` of its value (the empty
dict when the value is empty or fails to decode). -/

/-- A stored row of `tokyo_attractions.parquet` (raw column values). -/
structure Row where
  name : List Char
  description : List Char
  address : List Char
  ticket_price : List Char
  opening_hours : List Char
  recommended_duration : List Char
  categories : List Char
  transportation : List Char
  nearby_attractions : List Char

/-- Python `s.split(",")`. -/
def pySplitComma (s : List Char) : List (List Char) := s.splitOn ','

/-- A processed attraction record as produced by `_df_to_dict_list`. -/
structure Attraction where
  name : List Char
  description : List Char
  address : List Char
  ticket_price : List Char
  opening_hours : List Char
  recommended_duration : List Char
  categories : List (List Char)
  transportation : Json
  nearby_attractions : List (List Char)

/-- The per-row body of `_df_to_dict_list` (lines 62-87): split the two
comma-joined columns when non-empty, and decode `transportation` with
`json.loads` when non-empty, catching `JSONDecodeError` into `{}`. -/
def processRow (r : Row) : Attraction :=
  { name := r.name
    description := r.description
    address := r.address
    ticket_price := r.ticket_price
    opening_hours := r.opening_hours
    recommended_duration := r.recommended_duration
    categories := if r.categories.isEmpty then [] else pySplitComma r.categories
    transportation :=
      if r.transportation.isEmpty then Json.obj []
      else match jsonParse r.transportation with
        | some v => v
        | none => Json.obj []
    nearby_attractions :=
      if r.nearby_attractions.isEmpty then [] else pySplitComma r.nearby_attractions }

/-- `get_attraction_by_name` (lines 103-116): filter rows on exact name
equality and return the first processed match, `none` when there is no
match. -/
def get_attraction_by_name (db : List Row) (name : List Char) : Option Attraction :=
  match db.filter (fun r => r.name == name) with
  | [] => none
  | r :: _ => some (processRow r)

/-- The uncaught exception `get_transportation_info` can let escape. -/
inductive PyErr where
  | typeError : PyErr

/-- `get_transportation_info` (lines 164-176): fetch the processed record
and apply `json.loads` to its `transportation` field.  That field is a
decoded value, not text: when it is a string, `json.loads` parses it
(`JSONDecodeError` is caught into `{}`); for any other value `json.loads`
raises a `TypeError`, which the `except json.JSONDecodeError` clause does
not catch, so it escapes (modelled by `Except.error`).  A missing record
returns the empty dict. -/
def get_transportation_info (db : List Row) (name : List Char) : Except PyErr Json :=
  match get_attraction_by_name db name with
  | none => Except.ok (Json.obj [])
  | some attraction =>
    match attraction.transportation with
    | Json.str s =>
      match jsonParse s with
      | some v => Except.ok v
      | none => Except.ok (Json.obj [])
    | _ => Except.error PyErr.typeError

/-! ## Concrete collaborators used to instantiate the theorems -/

/-- A tool environment whose every call succeeds with the observation `OK`. -/
def envOk : ToolCall → ExecResult := fun _ => ExecResult.ok ("OK".toList)

/-- A model collaborator that always answers `hello` (no action marker)
with a 3-prompt/4-completion usage report. -/
def llmFinal : List Message → ModelResponse := fun _ => ⟨"hello".toList, 3, 4⟩

/-- A model collaborator that always requests the action `foo` at zero
token usage. -/
def llmActing : List Message → ModelResponse := fun _ => ⟨"Action: foo".toList, 0, 0⟩

/-- A one-row data store whose single attraction `A` carries the
serialised empty transportation dictionary, as the writer produces. -/
def row0 : Row := ⟨"A".toList, [], [], [], [], [], [], [lbrace, rbrace], []⟩

/-- A fixed rendering of the escaping exception. -/
def describe0 : PyErr → List Char := fun _ => "TypeError".toList

/-- A fixed serialisation of decoded values. -/
def dump0 : Json → List Char := fun _ => []

/-- The tool environment induced by the one-row store: a single-argument
call runs the modelled data layer for `get_transportation_info`. -/
def env10 : ToolCall → ExecResult := fun c =>
  match c with
  | ToolCall.callSingle _ nm =>
    match get_transportation_info [row0] nm with
    | Except.ok v => ExecResult.ok (dump0 v)
    | Except.error e => ExecResult.raise (describe0 e)
  | _ => ExecResult.ok []

/-! ## Supporting lemmas -/

lemma planLoop_zero (model : List Char) (budget : ℚ) (llm : List Message → ModelResponse)
    (env : ToolCall → ExecResult) (hist : List Message) (st : Totals) :
    planLoop model budget llm env 0 hist st
      = ⟨PlanMessage.iterationExceeded st.total_cost, st, []⟩ := rfl

lemma planLoop_succ_budget (model : List Char) (budget : ℚ) (llm : List Message → ModelResponse)
    (env : ToolCall → ExecResult) (n : ℕ) (hist : List Message) (st : Totals)
    (h : budget ≤ st.total_cost) :
    planLoop model budget llm env (n + 1) hist st
      = ⟨PlanMessage.budgetExceeded budget st.total_cost, st, []⟩ := by
  simp [planLoop, h]

lemma planLoop_succ_final (model : List Char) (budget : ℚ) (llm : List Message → ModelResponse)
    (env : ToolCall → ExecResult) (n : ℕ) (hist : List Message) (st : Totals)
    (h : ¬ budget ≤ st.total_cost) (ha : (extract_action (llm hist).text).1 = []) :
    planLoop model budget llm env (n + 1) hist st
      = ⟨PlanMessage.finalAnswer (llm hist).text
            ((llm hist).prompt_tokens + (llm hist).completion_tokens)
            (callCost model (llm hist))
            ((st.prompt_tokens + (llm hist).prompt_tokens)
              + (st.completion_tokens + (llm hist).completion_tokens))
            (st.total_cost + callCost model (llm hist)),
         ⟨st.total_cost + callCost model (llm hist),
          st.prompt_tokens + (llm hist).prompt_tokens,
          st.completion_tokens + (llm hist).completion_tokens⟩,
         [((llm hist).prompt_tokens, (llm hist).completion_tokens)]⟩ := by
  simp [planLoop, h, ha, callCost]

lemma planLoop_succ_cont (model : List Char) (budget : ℚ) (llm : List Message → ModelResponse)
    (env : ToolCall → ExecResult) (n : ℕ) (hist : List Message) (st : Totals)
    (h : ¬ budget ≤ st.total_cost) (ha : (extract_action (llm hist).text).1 ≠ []) :
    planLoop model budget llm env (n + 1) hist st
      = { msg := (planLoop model budget llm env n
            ((hist ++ [⟨Role.assistant, (llm hist).text⟩])
              ++ [⟨Role.user, observationTag
                    ++ (execute_action env (extract_action (llm hist).text).1
                          (extract_action (llm hist).text).2).1⟩])
            ⟨st.total_cost + callCost model (llm hist),
             st.prompt_tokens + (llm hist).prompt_tokens,
             st.completion_tokens + (llm hist).completion_tokens⟩).msg,
          final := (planLoop model budget llm env n
            ((hist ++ [⟨Role.assistant, (llm hist).text⟩])
              ++ [⟨Role.user, observationTag
                    ++ (execute_action env (extract_action (llm hist).text).1
                          (extract_action (llm hist).text).2).1⟩])
            ⟨st.total_cost + callCost model (llm hist),
             st.prompt_tokens + (llm hist).prompt_tokens,
             st.completion_tokens + (llm hist).completion_tokens⟩).final,
          reports := ((llm hist).prompt_tokens, (llm hist).completion_tokens)
            :: (planLoop model budget llm env n
            ((hist ++ [⟨Role.assistant, (llm hist).text⟩])
              ++ [⟨Role.user, observationTag
                    ++ (execute_action env (extract_action (llm hist).text).1
                          (extract_action (llm hist).text).2).1⟩])
            ⟨st.total_cost + callCost model (llm hist),
             st.prompt_tokens + (llm hist).prompt_tokens,
             st.completion_tokens + (llm hist).completion_tokens⟩).reports } := by
  simp [planLoop, h, ha, callCost]

lemma price_nonneg (m : List Char) : 0 ≤ inPrice m ∧ 0 ≤ outPrice m := by
  unfold inPrice outPrice MODEL_PRICING
  simp only [List.lookup]
  repeat' split
  all_goals norm_num [qwenFlashPrice]

lemma calculate_cost_eq (m : List Char) (pt ct : ℕ) :
    calculate_cost m pt ct = (pt : ℚ) / 1000 * inPrice m + (ct : ℚ) / 1000 * outPrice m := rfl

lemma calculate_cost_nonneg (m : List Char) (pt ct : ℕ) : 0 ≤ calculate_cost m pt ct := by
  rw [calculate_cost_eq]
  have h := price_nonneg m
  have h1 : (0 : ℚ) ≤ (pt : ℚ) / 1000 * inPrice m := mul_nonneg (by positivity) h.1
  have h2 : (0 : ℚ) ≤ (ct : ℚ) / 1000 * outPrice m := mul_nonneg (by positivity) h.2
  linarith

lemma planLoop_reports_le (model : List Char) (budget : ℚ) (llm : List Message → ModelResponse)
    (env : ToolCall → ExecResult) :
    ∀ (n : ℕ) (hist : List Message) (st : Totals),
      (planLoop model budget llm env n hist st).reports.length ≤ n := by
  intro n
  induction n with
  | zero => intro hist st; simp [planLoop_zero]
  | succ k ih =>
    intro hist st
    by_cases h : budget ≤ st.total_cost
    · simp [planLoop_succ_budget _ _ _ _ _ _ _ h]
    · by_cases ha : (extract_action (llm hist).text).1 = []
      · simp [planLoop_succ_final _ _ _ _ _ _ _ h ha]
      · rw [planLoop_succ_cont _ _ _ _ _ _ _ h ha]
        simpa using ih _ _

lemma planLoop_account (model : List Char) (budget : ℚ) (llm : List Message → ModelResponse)
    (env : ToolCall → ExecResult) :
    ∀ (n : ℕ) (hist : List Message) (st : Totals),
      (planLoop model budget llm env n hist st).final.total_cost
          = st.total_cost
            + (((planLoop model budget llm env n hist st).reports).map
                (fun r => calculate_cost model r.1 r.2)).sum
        ∧ (planLoop model budget llm env n hist st).final.prompt_tokens
          = st.prompt_tokens
            + (((planLoop model budget llm env n hist st).reports).map Prod.fst).sum
        ∧ (planLoop model budget llm env n hist st).final.completion_tokens
          = st.completion_tokens
            + (((planLoop model budget llm env n hist st).reports).map Prod.snd).sum := by
  intro n
  induction n with
  | zero => intro hist st; simp [planLoop_zero]
  | succ k ih =>
    intro hist st
    by_cases h : budget ≤ st.total_cost
    · simp [planLoop_succ_budget _ _ _ _ _ _ _ h]
    · by_cases ha : (extract_action (llm hist).text).1 = []
      · simp [planLoop_succ_final _ _ _ _ _ _ _ h ha, callCost]
      · rw [planLoop_succ_cont _ _ _ _ _ _ _ h ha]
        obtain ⟨h1, h2, h3⟩ := ih ((hist ++ [⟨Role.assistant, (llm hist).text⟩])
              ++ [⟨Role.user, observationTag
                    ++ (execute_action env (extract_action (llm hist).text).1
                          (extract_action (llm hist).text).2).1⟩])
            ⟨st.total_cost + callCost model (llm hist),
             st.prompt_tokens + (llm hist).prompt_tokens,
             st.completion_tokens + (llm hist).completion_tokens⟩
        refine ⟨?_, ?_, ?_⟩
        · simp only [List.map_cons, List.sum_cons]
          rw [h1]; simp [callCost]; ring
        · simp only [List.map_cons, List.sum_cons]
          rw [h2]; simp; omega
        · simp only [List.map_cons, List.sum_cons]
          rw [h3]; simp; omega

lemma planLoop_cost_mono (model : List Char) (budget : ℚ) (llm : List Message → ModelResponse)
    (env : ToolCall → ExecResult) (n : ℕ) (hist : List Message) (st : Totals) :
    st.total_cost ≤ (planLoop model budget llm env n hist st).final.total_cost := by
  have h := (planLoop_account model budget llm env n hist st).1
  rw [h]
  have : 0 ≤ (((planLoop model budget llm env n hist st).reports).map
      (fun r => calculate_cost model r.1 r.2)).sum := by
    apply List.sum_nonneg
    intro x hx
    simp only [List.mem_map] at hx
    obtain ⟨r, _, rfl⟩ := hx
    exact calculate_cost_nonneg model r.1 r.2
  linarith

lemma planLoop_overspend (model : List Char) (budget B : ℚ) (llm : List Message → ModelResponse)
    (env : ToolCall → ExecResult) (hB : ∀ h, callCost model (llm h) ≤ B) :
    ∀ (n : ℕ) (hist : List Message) (st : Totals), st.total_cost < budget + B →
      (planLoop model budget llm env n hist st).final.total_cost < budget + B := by
  intro n
  induction n with
  | zero => intro hist st hst; simpa [planLoop_zero] using hst
  | succ k ih =>
    intro hist st hst
    by_cases h : budget ≤ st.total_cost
    · simpa [planLoop_succ_budget _ _ _ _ _ _ _ h] using hst
    · push_neg at h
      have hstep : st.total_cost + callCost model (llm hist) < budget + B := by
        have := hB hist
        linarith
      by_cases ha : (extract_action (llm hist).text).1 = []
      · simpa [planLoop_succ_final _ _ _ _ _ _ _ (not_le.mpr h) ha] using hstep
      · rw [planLoop_succ_cont _ _ _ _ _ _ _ (not_le.mpr h) ha]
        exact ih _ _ hstep

lemma planLoop_all_actions (model : List Char) (budget B : ℚ)
    (llm : List Message → ModelResponse) (env : ToolCall → ExecResult)
    (hA : ∀ h, (extract_action (llm h).text).1 ≠ [])
    (hB : ∀ h, callCost model (llm h) ≤ B) (hB0 : 0 ≤ B) :
    ∀ (n : ℕ) (hist : List Message) (st : Totals),
      st.total_cost + (n : ℚ) * B < budget →
      (planLoop model budget llm env n hist st).msg
          = PlanMessage.iterationExceeded
              ((planLoop model budget llm env n hist st).final.total_cost)
        ∧ (planLoop model budget llm env n hist st).reports.length = n := by
  intro n
  induction n with
  | zero => intro hist st _; simp [planLoop_zero]
  | succ k ih =>
    intro hist st hst
    have hklt : st.total_cost < budget := by
      have h0 : 0 ≤ ((k : ℚ) + 1) * B := by positivity
      push_cast at hst
      nlinarith
    have h : ¬ budget ≤ st.total_cost := not_le.mpr hklt
    rw [planLoop_succ_cont _ _ _ _ _ _ _ h (hA hist)]
    have hnext : (st.total_cost + callCost model (llm hist)) + (k : ℚ) * B < budget := by
      have := hB hist
      push_cast at hst
      nlinarith
    obtain ⟨h1, h2⟩ := ih ((hist ++ [⟨Role.assistant, (llm hist).text⟩])
              ++ [⟨Role.user, observationTag
                    ++ (execute_action env (extract_action (llm hist).text).1
                          (extract_action (llm hist).text).2).1⟩])
            ⟨st.total_cost + callCost model (llm hist),
             st.prompt_tokens + (llm hist).prompt_tokens,
             st.completion_tokens + (llm hist).completion_tokens⟩ hnext
    exact ⟨h1, by simpa using h2⟩

lemma exec_single_eq (env : ToolCall → ExecResult) (action raw : List Char)
    (h : action ∈ singleStringActions) :
    execute_action env action raw
      = (observe (env (ToolCall.callSingle action (pyStripQuotes raw))),
         some (ToolCall.callSingle action (pyStripQuotes raw))) := by
  have ht : action ∈ toolNames := by fin_cases h <;> decide
  unfold execute_action
  rw [if_pos ht, if_pos h]

lemma exec_search_eq (env : ToolCall → ExecResult) (raw : List Char) :
    execute_action env ("search_attractions".toList) raw
      = match jsonParse raw with
        | none => (observe (env (ToolCall.callSearchKeyword (pyStripQuotes raw))),
                   some (ToolCall.callSearchKeyword (pyStripQuotes raw)))
        | some (Json.obj fields) => (observe (env (ToolCall.callSearchFields fields)),
                   some (ToolCall.callSearchFields fields))
        | some _ => (execErrorPrefix ++ mappingTypeError, none) := by
  unfold execute_action
  rw [if_pos (by decide), if_neg (by decide), if_pos rfl]
  rcases hj : jsonParse raw with _ | v
  · rfl
  · rcases v <;> rfl

lemma exec_search_none (env : ToolCall → ExecResult) (raw : List Char)
    (hj : jsonParse raw = none) :
    execute_action env ("search_attractions".toList) raw
      = (observe (env (ToolCall.callSearchKeyword (pyStripQuotes raw))),
         some (ToolCall.callSearchKeyword (pyStripQuotes raw))) := by
  rw [exec_search_eq env raw, hj]

lemma exec_search_obj (env : ToolCall → ExecResult) (raw : List Char)
    (fields : List (List Char × Json)) (hj : jsonParse raw = some (Json.obj fields)) :
    execute_action env ("search_attractions".toList) raw
      = (observe (env (ToolCall.callSearchFields fields)),
         some (ToolCall.callSearchFields fields)) := by
  rw [exec_search_eq env raw, hj]

lemma exec_search_bad (env : ToolCall → ExecResult) (raw : List Char) (v : Json)
    (hj : jsonParse raw = some v) (hv : ∀ fields, v ≠ Json.obj fields) :
    execute_action env ("search_attractions".toList) raw
      = (execErrorPrefix ++ mappingTypeError, none) := by
  rw [exec_search_eq env raw, hj]
  rcases v <;> first | rfl | exact absurd rfl (hv _)

lemma exec_noarg_eq (env : ToolCall → ExecResult) (action raw : List Char)
    (ht : action ∈ toolNames) (h1 : action ∉ singleStringActions)
    (h2 : action ≠ "search_attractions".toList) :
    execute_action env action raw
      = (observe (env (ToolCall.callNoArg action)), some (ToolCall.callNoArg action)) := by
  unfold execute_action
  rw [if_pos ht, if_neg h1, if_neg h2]

lemma filter_name_eq_nil_iff (db : List Row) (name : List Char) :
    db.filter (fun r => r.name == name) = [] ↔ ¬ ∃ r ∈ db, r.name = name := by
  rw [List.filter_eq_nil_iff]
  simp [beq_iff_eq]

lemma processRow_transportation_obj (r : Row)
    (hr : r.transportation = []
      ∨ ∃ fields, jsonParse r.transportation = some (Json.obj fields)) :
    ∃ fields, (processRow r).transportation = Json.obj fields := by
  rcases hr with he | ⟨fields, hp⟩
  · exact ⟨[], by simp [processRow, he]⟩
  · by_cases he : r.transportation.isEmpty
    · exact ⟨[], by simp [processRow, he]⟩
    · exact ⟨fields, by simp [processRow, he, hp]⟩

lemma transp_obj_of_some (db : List Row) (name : List Char)
    (hwf : ∀ r ∈ db, r.transportation = []
        ∨ ∃ fields, jsonParse r.transportation = some (Json.obj fields)) :
    ∀ a, get_attraction_by_name db name = some a
      → ∃ fields, a.transportation = Json.obj fields := by
  intro a ha
  unfold get_attraction_by_name at ha
  cases hf : db.filter (fun r => r.name == name) with
  | nil => rw [hf] at ha; simp at ha
  | cons r0 t =>
    rw [hf] at ha
    have hr0 : r0 ∈ db := List.mem_of_mem_filter (hf ▸ List.mem_cons_self r0 t)
    have ha2 : processRow r0 = a := by simpa using ha
    rw [← ha2]
    exact processRow_transportation_obj r0 (hwf r0 hr0)

lemma transp_error_of_present (db : List Row) (name : List Char)
    (hwf : ∀ r ∈ db, r.transportation = []
        ∨ ∃ fields, jsonParse r.transportation = some (Json.obj fields))
    (hpresent : ∃ r ∈ db, r.name = name) :
    get_transportation_info db name = Except.error PyErr.typeError := by
  have hne : db.filter (fun r => r.name == name) ≠ [] := by
    rw [Ne, filter_name_eq_nil_iff]
    exact not_not_intro hpresent
  cases hf : db.filter (fun r => r.name == name) with
  | nil => exact absurd hf hne
  | cons r0 t =>
    have hsome : get_attraction_by_name db name = some (processRow r0) := by
      unfold get_attraction_by_name
      rw [hf]
    obtain ⟨fields, hobj⟩ := transp_obj_of_some db name hwf (processRow r0) hsome
    unfold get_transportation_info
    rw [hsome]
    simp [hobj]

/-! ## Claim theorems -/

/-- C1: whenever accumulated cost is at or over the budget limit at an
iteration boundary (including the entry check before the first
iteration), the loop makes zero further model calls (no usage reports)
and returns the budget-exceeded message carrying the limit and the
current accumulated cost; consequently, when every model call costs at
most `B`, total spend stays below `budget + B` — an overspend of at most
one call beyond the ceiling. -/
theorem budget_exceeded_halts (model : List Char) (budget B : ℚ)
    (llm : List Message → ModelResponse) (env : ToolCall → ExecResult)
    (query : List Char) (n : ℕ) (hist : List Message) (st : Totals) :
    (budget ≤ st.total_cost →
      planLoop model budget llm env (n + 1) hist st
        = ⟨PlanMessage.budgetExceeded budget st.total_cost, st, []⟩)
    ∧ (budget ≤ st.total_cost →
      plan_travel model budget llm env query st
        = ⟨PlanMessage.budgetExceeded budget st.total_cost, st, []⟩)
    ∧ ((∀ h, callCost model (llm h) ≤ B) → st.total_cost < budget + B →
      (planLoop model budget llm env n hist st).final.total_cost < budget + B) := by
  refine ⟨fun h => planLoop_succ_budget _ _ _ _ _ _ _ h, fun h => ?_,
    fun hB hlt => planLoop_overspend model budget B llm env hB n hist st hlt⟩
  unfold plan_travel
  rw [if_pos h]

theorem budget_exceeded_halts_witness :
    planLoop ("qwen-flash".toList) 1 llmActing envOk 3 [] ⟨1, 0, 0⟩
        = ⟨PlanMessage.budgetExceeded 1 1, ⟨1, 0, 0⟩, []⟩
    ∧ plan_travel ("qwen-flash".toList) 1 llmActing envOk ("q".toList) ⟨1, 0, 0⟩
        = ⟨PlanMessage.budgetExceeded 1 1, ⟨1, 0, 0⟩, []⟩
    ∧ (planLoop ("qwen-flash".toList) 1 llmActing envOk 2 [] ⟨1, 0, 0⟩).final.total_cost
        < 1 + 1 := by
  have h := budget_exceeded_halts ("qwen-flash".toList) 1 1 llmActing envOk ("q".toList) 2 []
      ⟨1, 0, 0⟩
  exact ⟨h.1 (le_refl 1), h.2.1 (le_refl 1),
    h.2.2 (fun x => by
      norm_num [llmActing, callCost, calculate_cost, MODEL_PRICING, qwenFlashPrice, List.lookup])
      (by norm_num)⟩

/-- C2: the loop runs at most `max_iterations` iterations, a constant
(10) independent of the budget; when the model always produces an action
and the budget is never reached, the run makes exactly `max_iterations`
model calls and returns the step-limit failure message carrying the
current accumulated cost. -/
theorem iteration_cap (model : List Char) (budget B : ℚ)
    (llm : List Message → ModelResponse) (env : ToolCall → ExecResult)
    (query : List Char) (st : Totals) :
    max_iterations = 10
    ∧ (plan_travel model budget llm env query st).reports.length ≤ max_iterations
    ∧ ((∀ h, (extract_action (llm h).text).1 ≠ []) →
       (∀ h, callCost model (llm h) ≤ B) →
       st.total_cost + (max_iterations : ℚ) * B < budget →
       (plan_travel model budget llm env query st).msg
           = PlanMessage.iterationExceeded
               ((plan_travel model budget llm env query st).final.total_cost)
         ∧ (plan_travel model budget llm env query st).reports.length = max_iterations) := by
  refine ⟨rfl, ?_, ?_⟩
  · unfold plan_travel
    by_cases h : budget ≤ st.total_cost
    · rw [if_pos h]; simp
    · rw [if_neg h]; exact planLoop_reports_le model budget llm env _ _ _
  · intro hA hB hlt
    have hB0 : 0 ≤ B :=
      le_trans (calculate_cost_nonneg model _ _) (hB (initialHistory query))
    have hstlt : st.total_cost < budget := by
      have h10 : (0 : ℚ) ≤ (max_iterations : ℚ) * B := by positivity
      linarith
    unfold plan_travel
    rw [if_neg (not_le.mpr hstlt)]
    exact planLoop_all_actions model budget B llm env hA hB hB0 max_iterations
      (initialHistory query) st hlt

theorem iteration_cap_witness :
    (plan_travel ("qwen-flash".toList) 1 llmActing envOk ("q".toList) ⟨0, 0, 0⟩).msg
        = PlanMessage.iterationExceeded
            ((plan_travel ("qwen-flash".toList) 1 llmActing envOk ("q".toList)
                ⟨0, 0, 0⟩).final.total_cost)
    ∧ (plan_travel ("qwen-flash".toList) 1 llmActing envOk ("q".toList)
        ⟨0, 0, 0⟩).reports.length = max_iterations := by
  exact (iteration_cap ("qwen-flash".toList) 1 0 llmActing envOk ("q".toList) ⟨0, 0, 0⟩).2.2
    (fun x => by simp only [llmActing]; decide)
    (fun x => by
      norm_num [llmActing, callCost, calculate_cost, MODEL_PRICING, qwenFlashPrice, List.lookup])
    (by norm_num)

/-- C3: when the budget is not yet reached and the model's first response
carries no `Action:` marker, the loop stops after exactly one model call
(one usage report) and returns that response as the final answer,
augmented with the cost-disclosure figures of this call and of the run. -/
theorem no_action_final_answer (model : List Char) (budget : ℚ)
    (llm : List Message → ModelResponse) (env : ToolCall → ExecResult)
    (query : List Char) (st : Totals)
    (hb : st.total_cost < budget)
    (ha : (extract_action (llm (initialHistory query)).text).1 = []) :
    plan_travel model budget llm env query st
      = ⟨PlanMessage.finalAnswer (llm (initialHistory query)).text
            ((llm (initialHistory query)).prompt_tokens
              + (llm (initialHistory query)).completion_tokens)
            (callCost model (llm (initialHistory query)))
            ((st.prompt_tokens + (llm (initialHistory query)).prompt_tokens)
              + (st.completion_tokens + (llm (initialHistory query)).completion_tokens))
            (st.total_cost + callCost model (llm (initialHistory query))),
         ⟨st.total_cost + callCost model (llm (initialHistory query)),
          st.prompt_tokens + (llm (initialHistory query)).prompt_tokens,
          st.completion_tokens + (llm (initialHistory query)).completion_tokens⟩,
         [((llm (initialHistory query)).prompt_tokens,
           (llm (initialHistory query)).completion_tokens)]⟩ := by
  unfold plan_travel
  rw [if_neg (not_le.mpr hb)]
  exact planLoop_succ_final model budget llm env 9 (initialHistory query) st
    (not_le.mpr hb) ha

theorem no_action_final_answer_witness :
    plan_travel ("qwen-flash".toList) 1 llmFinal envOk ("q".toList) ⟨0, 0, 0⟩
      = ⟨PlanMessage.finalAnswer ("hello".toList) (3 + 4)
            (callCost ("qwen-flash".toList) (llmFinal (initialHistory ("q".toList))))
            ((0 + 3) + (0 + 4))
            (0 + callCost ("qwen-flash".toList) (llmFinal (initialHistory ("q".toList)))),
         ⟨0 + callCost ("qwen-flash".toList) (llmFinal (initialHistory ("q".toList))),
          0 + 3, 0 + 4⟩,
         [(3, 4)]⟩ := by
  exact no_action_final_answer ("qwen-flash".toList) 1 llmFinal envOk ("q".toList) ⟨0, 0, 0⟩
    (by norm_num) (by simp only [llmFinal]; decide)

/-- C4: the cost function charges `prompt_tokens/1000` at the input price
plus `completion_tokens/1000` at the output price, is non-negative,
additive in each token count independently, and falls back to the
default (`qwen-flash`) table entry for models absent from the price
table; as a pure function it is identical across repeated calls. -/
theorem calculate_cost_spec (model : List Char) (pt ct pt2 ct2 : ℕ) :
    calculate_cost model pt ct
        = (pt : ℚ) / 1000 * inPrice model + (ct : ℚ) / 1000 * outPrice model
    ∧ 0 ≤ calculate_cost model pt ct
    ∧ calculate_cost model (pt + pt2) (ct + ct2)
        = calculate_cost model pt ct + calculate_cost model pt2 ct2
    ∧ calculate_cost model pt ct = calculate_cost model pt 0 + calculate_cost model 0 ct
    ∧ (MODEL_PRICING.lookup model = none →
        calculate_cost model pt ct = calculate_cost ("qwen-flash".toList) pt ct) := by
  refine ⟨calculate_cost_eq model pt ct, calculate_cost_nonneg model pt ct, ?_, ?_, ?_⟩
  · rw [calculate_cost_eq, calculate_cost_eq, calculate_cost_eq]
    push_cast
    ring
  · rw [calculate_cost_eq, calculate_cost_eq, calculate_cost_eq]
    push_cast
    ring
  · intro h
    unfold calculate_cost
    rw [h]
    rfl

theorem calculate_cost_spec_witness :
    calculate_cost ("gpt".toList) 2000 1000
        = (2000 : ℚ) / 1000 * inPrice ("gpt".toList)
          + (1000 : ℚ) / 1000 * outPrice ("gpt".toList)
    ∧ 0 ≤ calculate_cost ("gpt".toList) 2000 1000
    ∧ calculate_cost ("gpt".toList) (2000 + 5) (1000 + 7)
        = calculate_cost ("gpt".toList) 2000 1000 + calculate_cost ("gpt".toList) 5 7
    ∧ calculate_cost ("gpt".toList) 2000 1000
        = calculate_cost ("gpt".toList) 2000 0 + calculate_cost ("gpt".toList) 0 1000
    ∧ calculate_cost ("gpt".toList) 2000 1000
        = calculate_cost ("qwen-flash".toList) 2000 1000 := by
  have h := calculate_cost_spec ("gpt".toList) 2000 1000 5 7
  exact ⟨h.1, h.2.1, h.2.2.1, h.2.2.2.1, h.2.2.2.2 rfl⟩

/-- C5: tool dispatch always returns a plain observation string and never
lets an exception escape: an unregistered action name yields the
fixed-format unknown-action string with no operation invoked, and a
registered action either returns the operation's serialised result, or
converts whatever the invocation raised into the fixed-format
action-execution-error string carrying the error detail. -/
theorem execute_action_total (env : ToolCall → ExecResult) (action arg : List Char) :
    (action ∉ toolNames
      ∧ execute_action env action arg = (unknownActionMsg action, none))
    ∨ (action ∈ toolNames
      ∧ ((∃ c s, env c = ExecResult.ok s ∧ execute_action env action arg = (s, some c))
        ∨ (∃ c e, env c = ExecResult.raise e
            ∧ execute_action env action arg = (execErrorPrefix ++ e, some c))
        ∨ execute_action env action arg = (execErrorPrefix ++ mappingTypeError, none))) := by
  by_cases ht : action ∈ toolNames
  · right
    refine ⟨ht, ?_⟩
    by_cases h1 : action ∈ singleStringActions
    · rcases henv : env (ToolCall.callSingle action (pyStripQuotes arg)) with s | e
      · exact Or.inl ⟨_, s, henv, by rw [exec_single_eq env action arg h1, henv]; rfl⟩
      · exact Or.inr (Or.inl ⟨_, e, henv, by rw [exec_single_eq env action arg h1, henv]; rfl⟩)
    · by_cases h2 : action = "search_attractions".toList
      · subst h2
        rcases hj : jsonParse arg with _ | v
        · rcases henv : env (ToolCall.callSearchKeyword (pyStripQuotes arg)) with s | e
          · exact Or.inl ⟨_, s, henv, by rw [exec_search_none env arg hj, henv]; rfl⟩
          · exact Or.inr (Or.inl ⟨_, e, henv, by rw [exec_search_none env arg hj, henv]; rfl⟩)
        · by_cases hobj : ∃ fields, v = Json.obj fields
          · obtain ⟨fields, rfl⟩ := hobj
            rcases henv : env (ToolCall.callSearchFields fields) with s | e
            · exact Or.inl ⟨_, s, henv, by rw [exec_search_obj env arg fields hj, henv]; rfl⟩
            · exact Or.inr (Or.inl ⟨_, e, henv,
                by rw [exec_search_obj env arg fields hj, henv]; rfl⟩)
          · push_neg at hobj
            exact Or.inr (Or.inr (exec_search_bad env arg v hj hobj))
      · rcases henv : env (ToolCall.callNoArg action) with s | e
        · exact Or.inl ⟨_, s, henv, by rw [exec_noarg_eq env action arg ht h1 h2, henv]; rfl⟩
        · exact Or.inr (Or.inl ⟨_, e, henv, by rw [exec_noarg_eq env action arg ht h1 h2, henv]; rfl⟩)
  · left
    refine ⟨ht, ?_⟩
    unfold execute_action
    rw [if_neg ht]

/-- C6 counterexample: the claim says the extracted field is the content
following the `Action:` marker up to the end of that line; on a response
whose marker is immediately followed by a line break, the code's `\s*`
skips the break and captures the next line instead, so the parser returns
`foo` where the claimed contract returns the empty string. -/
theorem extract_action_counterexample :
    (extract_action ("Action:\nfoo".toList)).1 = "foo".toList
    ∧ extractFieldClaim ("Action:".toList) ("Action:\nfoo".toList) = []
    ∧ "foo".toList ≠ ([] : List Char) :=
  ⟨rfl, rfl, by decide⟩

/-- C6 amended: both fields are extracted by finding the first occurrence
of the marker, skipping any following whitespace (line breaks included),
capturing up to the end of the line reached, and stripping surrounding
whitespace; an absent marker yields the empty string, and the parser is a
total function. -/
theorem extract_action_amended (response : List Char) :
    extract_action response
      = (extractFieldAmended ("Action:".toList) response,
         extractFieldAmended ("Action Input:".toList) response) := by
  unfold extract_action extractFieldAmended reSearchCapture
  cases dropAfterMarker ("Action:".toList) response <;>
    cases dropAfterMarker ("Action Input:".toList) response <;> rfl

/-- C7 counterexample: the claim says dispatch strips exactly one layer
of surrounding double quotes; on the raw text `""x""` the code's
`strip('"')` removes every leading and trailing quote and passes `x`,
while one-layer stripping would pass `"x"`. -/
theorem strip_quotes_counterexample :
    (execute_action envOk ("get_basic_info".toList)
        [dquote, dquote, 'x', dquote, dquote]).2
      = some (ToolCall.callSingle ("get_basic_info".toList) ['x'])
    ∧ stripOneQuoteLayer [dquote, dquote, 'x', dquote, dquote] = [dquote, 'x', dquote]
    ∧ [dquote, 'x', dquote] ≠ (['x'] : List Char) :=
  ⟨rfl, by decide, by decide⟩

/-- C7 amended: for every single-string-argument action, dispatch removes
every leading and trailing double-quote character (not merely one
matched layer) from the raw argument text and passes the result as the
operation's sole parameter. -/
theorem single_string_dispatch (env : ToolCall → ExecResult) (action raw : List Char)
    (h : action ∈ singleStringActions) :
    execute_action env action raw
      = (observe (env (ToolCall.callSingle action (pyStripQuotes raw))),
         some (ToolCall.callSingle action (pyStripQuotes raw))) :=
  exec_single_eq env action raw h

theorem single_string_dispatch_witness :
    execute_action envOk ("get_basic_info".toList) [dquote, 'x', dquote]
      = (observe (envOk (ToolCall.callSingle ("get_basic_info".toList)
            (pyStripQuotes [dquote, 'x', dquote]))),
         some (ToolCall.callSingle ("get_basic_info".toList)
            (pyStripQuotes [dquote, 'x', dquote]))) :=
  single_string_dispatch envOk ("get_basic_info".toList) [dquote, 'x', dquote] (by decide)

/-- C8 counterexample: the claim says every raw text that fails to parse
as a key-value object falls back to a `keyword=` invocation; the raw
text `5` is valid JSON but not an object, and the code raises a
`TypeError` at the `**` spread, which the handler converts to the
action-execution-error observation instead of performing the fallback
call (whose observation here would be `OK`). -/
theorem search_dispatch_counterexample :
    (jsonParse ("5".toList)).isSome = true
    ∧ execute_action envOk ("search_attractions".toList) ("5".toList)
        = (execErrorPrefix ++ mappingTypeError, none)
    ∧ execErrorPrefix ++ mappingTypeError ≠ "OK".toList
    ∧ envOk (ToolCall.callSearchKeyword (pyStripQuotes ("5".toList)))
        = ExecResult.ok ("OK".toList) :=
  ⟨rfl, rfl, by decide, rfl⟩

/-- C8 amended: `search_attractions` dispatch decodes the raw text with
`json.loads`; a decoded key-value object is spread as keyword arguments,
a failed decode falls back to one `keyword=` argument holding the
quote-stripped text, and a successful decode of any non-object value
raises a `TypeError` that surfaces as the action-execution-error
observation; the fallback call happens exactly when decoding fails. -/
theorem search_dispatch (env : ToolCall → ExecResult) (raw : List Char) :
    (execute_action env ("search_attractions".toList) raw
      = match jsonParse raw with
        | none => (observe (env (ToolCall.callSearchKeyword (pyStripQuotes raw))),
                   some (ToolCall.callSearchKeyword (pyStripQuotes raw)))
        | some (Json.obj fields) => (observe (env (ToolCall.callSearchFields fields)),
                   some (ToolCall.callSearchFields fields))
        | some _ => (execErrorPrefix ++ mappingTypeError, none))
    ∧ ((∃ kw, (execute_action env ("search_attractions".toList) raw).2
          = some (ToolCall.callSearchKeyword kw)) ↔ jsonParse raw = none) := by
  refine ⟨exec_search_eq env raw, ?_⟩
  rcases hj : jsonParse raw with _ | v
  · rw [exec_search_none env raw hj]
    simp [hj]
  · by_cases hobj : ∃ fields, v = Json.obj fields
    · obtain ⟨fields, rfl⟩ := hobj
      rw [exec_search_obj env raw fields hj]
      simp [hj]
    · push_neg at hobj
      rw [exec_search_bad env raw v hj hobj]
      simp [hj]

/-- C9: throughout every run, the accumulated cost equals the starting
cost plus the sum of per-call costs computed from the usage reports seen,
the token totals equal the sums of the reported counts, and the
accumulated cost never decreases — for the loop from any state (hence at
every iteration boundary) and for a whole `plan_travel` run. -/
theorem running_account_invariant (model : List Char) (budget : ℚ)
    (llm : List Message → ModelResponse) (env : ToolCall → ExecResult)
    (query : List Char) (n : ℕ) (hist : List Message) (st : Totals) :
    ((planLoop model budget llm env n hist st).final.total_cost
        = st.total_cost
          + (((planLoop model budget llm env n hist st).reports).map
              (fun r => calculate_cost model r.1 r.2)).sum)
    ∧ ((planLoop model budget llm env n hist st).final.prompt_tokens
        = st.prompt_tokens
          + (((planLoop model budget llm env n hist st).reports).map Prod.fst).sum)
    ∧ ((planLoop model budget llm env n hist st).final.completion_tokens
        = st.completion_tokens
          + (((planLoop model budget llm env n hist st).reports).map Prod.snd).sum)
    ∧ st.total_cost ≤ (planLoop model budget llm env n hist st).final.total_cost
    ∧ ((plan_travel model budget llm env query st).final.total_cost
        = st.total_cost
          + (((plan_travel model budget llm env query st).reports).map
              (fun r => calculate_cost model r.1 r.2)).sum)
    ∧ st.total_cost ≤ (plan_travel model budget llm env query st).final.total_cost := by
  obtain ⟨h1, h2, h3⟩ := planLoop_account model budget llm env n hist st
  refine ⟨h1, h2, h3, planLoop_cost_mono model budget llm env n hist st, ?_, ?_⟩
  · unfold plan_travel
    by_cases h : budget ≤ st.total_cost
    · rw [if_pos h]; simp
    · rw [if_neg h]
      exact (planLoop_account model budget llm env max_iterations (initialHistory query) st).1
  · unfold plan_travel
    by_cases h : budget ≤ st.total_cost
    · rw [if_pos h]
    · rw [if_neg h]
      exact planLoop_cost_mono model budget llm env max_iterations (initialHistory query) st

/-- C10: over any store whose rows hold, as the writer produces, either
an empty transportation column or the JSON serialisation of a dictionary:
for a name present in the store, `get_attraction_by_name` returns the
record with `transportation` already decoded to a dictionary,
`get_transportation_info` applies `json.loads` to that non-string value
and the resulting `TypeError` escapes its `except json.JSONDecodeError`
clause, so the stored transportation data is never returned and, when the
call is dispatched from the loop, the failure surfaces as an
action-execution-error observation; the empty dict is returned exactly
when the name matches no record. -/
theorem transportation_info_raises (db : List Row) (name raw : List Char)
    (hwf : ∀ r ∈ db, r.transportation = []
        ∨ ∃ fields, jsonParse r.transportation = some (Json.obj fields)) :
    ((∃ r ∈ db, r.name = name) →
        get_transportation_info db name = Except.error PyErr.typeError)
    ∧ (∀ a, get_attraction_by_name db name = some a
        → ∃ fields, a.transportation = Json.obj fields)
    ∧ (get_transportation_info db name = Except.ok (Json.obj [])
        ↔ ¬ ∃ r ∈ db, r.name = name)
    ∧ (∀ (env : ToolCall → ExecResult) (describe : PyErr → List Char)
          (dump : Json → List Char),
        (∀ nm, env (ToolCall.callSingle ("get_transportation_info".toList) nm)
            = match get_transportation_info db nm with
              | Except.ok v => ExecResult.ok (dump v)
              | Except.error e => ExecResult.raise (describe e)) →
        (∃ r ∈ db, r.name = pyStripQuotes raw) →
        (execute_action env ("get_transportation_info".toList) raw).1
            = execErrorPrefix ++ describe PyErr.typeError) := by
  refine ⟨transp_error_of_present db name hwf, transp_obj_of_some db name hwf, ?_, ?_⟩
  · constructor
    · intro hok hpresent
      have herr := transp_error_of_present db name hwf hpresent
      rw [herr] at hok
      exact Except.noConfusion hok
    · intro habsent
      unfold get_transportation_info get_attraction_by_name
      have hnil : db.filter (fun r => r.name == name) = [] :=
        (filter_name_eq_nil_iff db name).mpr habsent
      rw [hnil]
  · intro env describe dump henv hpresent
    rw [exec_single_eq env ("get_transportation_info".toList) raw (by decide)]
    simp only []
    rw [henv (pyStripQuotes raw),
      transp_error_of_present db (pyStripQuotes raw) hwf hpresent]
    rfl

theorem transportation_info_raises_witness :
    get_transportation_info [row0] ("A".toList) = Except.error PyErr.typeError
    ∧ (get_transportation_info [row0] ("B".toList) = Except.ok (Json.obj [])
        ↔ ¬ ∃ r ∈ [row0], r.name = "B".toList)
    ∧ (execute_action env10 ("get_transportation_info".toList) ("A".toList)).1
        = execErrorPrefix ++ describe0 PyErr.typeError := by
  have hwf : ∀ r ∈ [row0], r.transportation = []
      ∨ ∃ fields, jsonParse r.transportation = some (Json.obj fields) := by
    intro r hr
    simp only [List.mem_singleton] at hr
    subst hr
    exact Or.inr ⟨[], rfl⟩
  refine ⟨(transportation_info_raises [row0] ("A".toList) ("A".toList) hwf).1
      ⟨row0, by simp, rfl⟩,
    (transportation_info_raises [row0] ("B".toList) ("B".toList) hwf).2.2.1,
    (transportation_info_raises [row0] ("A".toList) ("A".toList) hwf).2.2.2 env10
      describe0 dump0 (fun nm => rfl) ⟨row0, by simp, rfl⟩⟩

end Agent
